import Mathlib

/-!
# Verification of the src-cli campaigns execution engine

A shallow embedding, in Lean 4, of the parts of the `src-cli` campaigns
package relevant to the frozen claims: the workspace extractor's
path-traversal guard (`unzip` in the run-steps file), the task logger
(`log.go`), the repository resolver and search-query defaulting
(`service.go`), the executor pipeline (`executor.go`) and the `-j` flag
handling of the `campaigns apply` command (`campaigns_apply.go`).

Go strings are modelled as `String` / `List Char`; machine integers as
`Int`; fallible calls as `Except` / `Option`; the executor's effects
(callbacks, cache calls, log lifecycle, result aggregation) as an explicit
event trace.
-/

namespace SrcCli

/-! ## Path handling (Go `path/filepath` on Unix, as used by `unzip`) -/

/-- Split a character list on a separator character, keeping empty chunks,
as Go `strings.Split` / `bytes.Split` do for a one-byte separator.
`splitOnSep '/' "a//b"` is `["a", "", "b"]`; the empty input gives `[[]]`. -/
def splitOnSep (sep : Char) : List Char → List (List Char)
  | [] => [[]]
  | c :: cs =>
    if c = sep then [] :: splitOnSep sep cs
    else
      match splitOnSep sep cs with
      | [] => [[c]]
      | h :: t => (c :: h) :: t

/-- Join chunks with a separator character (inverse direction of `splitOnSep`). -/
def joinWithSep (sep : Char) : List (List Char) → List Char
  | [] => []
  | [x] => x
  | x :: xs => x ++ sep :: joinWithSep sep xs

/-- The element-processing loop of Go `filepath.Clean` (Unix rules): drop
empty and `.` elements; for `..`, pop the previously kept element when one
is available, drop the `..` at the root of a rooted path, and keep it
otherwise. `acc` holds the kept elements in reverse order. -/
def cleanElems (rooted : Bool) (acc : List (List Char)) : List (List Char) → List (List Char)
  | [] => acc.reverse
  | e :: es =>
    if e = [] ∨ e = ['.'] then cleanElems rooted acc es
    else if e = ['.', '.'] then
      match acc with
      | [] => if rooted then cleanElems rooted [] es else cleanElems rooted [['.', '.']] es
      | top :: rest =>
        if top = ['.', '.'] then cleanElems rooted (e :: acc) es
        else cleanElems rooted rest es
    else cleanElems rooted (e :: acc) es

/-- Go `filepath.Clean` on Unix, over character lists: shortest lexical
equivalent of the path. The empty path cleans to `"."`; a rooted path stays
rooted; a path that cleans away entirely becomes `"."` (or `"/"` if rooted). -/
def goCleanList (p : List Char) : List Char :=
  if p = [] then ['.']
  else
    let rooted := match p with | [] => false | c :: _ => c = '/'
    let elems := cleanElems rooted [] (splitOnSep '/' p)
    let out := joinWithSep '/' elems
    if rooted then '/' :: out
    else if out = [] then ['.'] else out

/-- Go `filepath.Clean` on Unix, over `String`. -/
def goClean (p : String) : String := String.mk (goCleanList p.data)

/-- Go `filepath.Join(a, b)` on Unix: `Clean(a + "/" + b)` when `a` is
non-empty, `Clean(b)` when only `b` is non-empty, `""` when both are empty. -/
def filepathJoin (a b : String) : String :=
  if a ≠ "" then goClean (String.mk (a.data ++ '/' :: b.data))
  else if b ≠ "" then goClean b
  else ""

/-- The per-entry ZipSlip check of `unzip`: the entry `name` is rejected
exactly when `filepath.Join(dest, name)` does not have
`filepath.Clean(dest) + "/"` as a prefix, in which case `unzip` returns an
"illegal file path" error before opening or writing any file for the entry. -/
def unzipEntryRejected (dest name : String) : Bool :=
  let fpath := filepathJoin dest name
  let outputBase := (goClean dest).data ++ ['/']
  !(List.isPrefixOf outputBase fpath.data)

/-- The entry's resolved destination path (`filepath.Join(dest, name)`)
escapes the destination directory: it is neither the cleaned destination
itself nor located strictly below it. -/
def entryEscapes (dest name : String) : Bool :=
  let fpath := (filepathJoin dest name).data
  let base := (goClean dest).data
  !(fpath == base || List.isPrefixOf (base ++ ['/']) fpath)

/-! ## Search-query count defaulting (`service.go`: `setDefaultQueryCount`) -/

/-- Word characters of Go `regexp`'s `\b` / `\w`: ASCII letters, digits
and underscore. -/
def isWordChar (c : Char) : Bool := c.isAlphanum || c == '_'

/-- After the maximal run of digits, a `\b` word boundary holds exactly
when the input ends or continues with a non-word character. Used for the
`\d+\b` tail of the pattern: a shorter digit run would be followed by a
digit (a word character), so matching the maximal run is equivalent to
matching some run. -/
def restDigitsBoundary : List Char → Bool
  | [] => true
  | c :: cs => if c.isDigit then restDigitsBoundary cs else !(isWordChar c)

/-- `\d+\b`: at least one digit, then a word boundary. -/
def digitsThenBoundary : List Char → Bool
  | [] => false
  | c :: cs => c.isDigit && restDigitsBoundary cs

/-- The literal `count:` followed by `\d+\b`, anchored at the head of the
list. -/
def hasCountAt : List Char → Bool
  | 'c' :: 'o' :: 'u' :: 'n' :: 't' :: ':' :: rest => digitsThenBoundary rest
  | _ => false

/-- Scan for a match of `\bcount:\d+\b` anywhere in the list. `bnd` records
whether a word boundary holds before the current position (start of input,
or previous character non-word); since the match starts with the word
character `c`, the leading `\b` holds exactly when `bnd` does. -/
def scanCount (bnd : Bool) : List Char → Bool
  | [] => false
  | c :: cs => (bnd && hasCountAt (c :: cs)) || scanCount (!(isWordChar c)) cs

/-- Go `defaultQueryCountRegex.MatchString(query)` for the pattern
`\bcount:\d+\b`. -/
def matchesDefaultQueryCountRegex (query : String) : Bool :=
  scanCount true query.data

/-- `hardCodedCount` from `service.go`. -/
def hardCodedCount : String := " count:999999"

/-- `setDefaultQueryCount` from `service.go`: return the query unchanged
when it already matches `\bcount:\d+\b`, otherwise append `" count:999999"`. -/
def setDefaultQueryCount (query : String) : String :=
  if matchesDefaultQueryCountRegex query then query
  else query ++ hardCodedCount

/-! ## Repository resolution (`service.go`: `ResolveRepositories`) -/

/-- A resolved repository. The campaign-types file is absent from the
sources; modelled from the spec: identity (opaque id), fully-qualified
name, default branch name, current revision, immutable after resolution. -/
structure Repository where
  ID : String
  Name : String
  DefaultBranch : String
  Revision : String
deriving DecidableEq, Repr

/-- One iteration of the inner loop of `ResolveRepositories`: skip a
repository whose ID was already seen, otherwise append it to `final` and
record its ID in `seen`. The accumulator pairs `final` with `seen` (the Go
`map[string]struct{}` modelled as the list of its keys). -/
def resolveStep (acc : List Repository × List String) (repo : Repository) :
    List Repository × List String :=
  if acc.2.contains repo.ID then acc else (acc.1 ++ [repo], repo.ID :: acc.2)

/-- `ResolveRepositories` from `service.go`, with the network resolution of
each `on:` clause abstracted as its result list: the outer loop walks the
per-clause repository lists, the inner loop deduplicates by repository ID
against the shared `seen` set while appending to the shared `final` list. -/
def resolveRepositories (onResults : List (List Repository)) : List Repository :=
  (onResults.foldl (fun acc repos => repos.foldl resolveStep acc) ([], [])).1

/-- Specification-side description of first-occurrence deduplication:
keep a repository exactly when its ID has not occurred earlier (neither in
`seen` nor in the prefix already kept), in encounter order. -/
def keepFirstByID (seen : List String) : List Repository → List Repository
  | [] => []
  | r :: rs =>
    if seen.contains r.ID then keepFirstByID seen rs
    else r :: keepFirstByID (r.ID :: seen) rs

/-- The `seen` set after running first-occurrence deduplication. -/
def seenAfter (seen : List String) : List Repository → List String
  | [] => seen
  | r :: rs =>
    if seen.contains r.ID then seenAfter seen rs
    else seenAfter (r.ID :: seen) rs

/-! ## Task logger (`log.go`) -/

/-- Filesystem actions performed by `TaskLogger.Close`. -/
inductive FsAction where
  | closeFile
  | removeFile
deriving DecidableEq, Repr

/-- `TaskLogger.Close` from `log.go`, as the list of filesystem actions it
performs when closing the underlying file succeeds. The source closes the
file, returns `nil` when `errored || keep`, and then returns `nil` again
unconditionally; the `os.Remove(tl.f.Name())` call below that second
`return nil` is unreachable, so no branch ever removes the file. -/
def taskLoggerClose (errored keep : Bool) : List FsAction :=
  let closed := [FsAction.closeFile]
  if errored || keep then closed
  else closed

/-- The close behaviour the spec describes (§4.4 and §9a: "the intended
behavior is to delete logs when neither `keep_logs` nor `errored`"):
close the file, then remove it unless `errored` or `keep` is set. -/
def taskLoggerCloseIntended (errored keep : Bool) : List FsAction :=
  if errored || keep then [FsAction.closeFile]
  else [FsAction.closeFile, FsAction.removeFile]

/-- `bytes.Split(p, []byte("\n"))`: the newline-delimited chunks of `p`,
including empty chunks; the empty input yields one empty chunk. -/
def bytesSplitNl (p : List Char) : List (List Char) := splitOnSep '\n' p

/-- One line as written by `TaskLogger.Logf("%s | %s", pfx, payload)`:
the RFC3339Nano timestamp (abstracted as `ts`), a space, the stream name
`pfx`, `" | "`, the payload, and a terminating newline. -/
def logfLine (ts pfx payload : List Char) : List Char :=
  ts ++ ' ' :: pfx ++ ' ' :: '|' :: ' ' :: payload ++ ['\n']

/-- `prefixWriter.Write` from `log.go`, as the list of log lines appended
for one `Write(p)` call. The source iterates with
`for line := range bytes.Split(p, []byte("\n"))`, so `line` is the chunk
INDEX (an `int`), and `string(line)` converts that index to the one-rune
string of code point `line`: the logged payload is `string(i)` for
`i = 0, 1, ...`, not the chunk's text. -/
def prefixWriterWrite (ts pfx : List Char) (p : List Char) : List (List Char) :=
  (List.range (bytesSplitNl p).length).map
    (fun i => logfLine ts pfx [Char.ofNat i])

/-- The write behaviour the spec describes: one line per newline-delimited
chunk, each line carrying the timestamp, the stream name, and that chunk's
own text. -/
def prefixWriterWriteIntended (ts pfx : List Char) (p : List Char) : List (List Char) :=
  (bytesSplitNl p).map (fun chunk => logfLine ts pfx chunk)

/-! ## Executor pipeline (`executor.go`) -/

/-- Go errors as they flow through `executor.do`: the context sentinel
errors, `*exec.ExitError` (carrying its `String()` rendering),
`*errTimeoutReached` (carrying the configured timeout, modelled in
seconds), `errors.Wrapf`-style wrapping from `github.com/pkg/errors`, and
other opaque errors. -/
inductive GoError where
  | deadlineExceeded
  | canceled
  | exitError (msg : String)
  | errTimeoutReached (timeout : Nat)
  | wrapped (msg : String) (cause : GoError)
  | simple (msg : String)
deriving DecidableEq, Repr

/-- `errors.Cause` from `github.com/pkg/errors`: unwrap `Wrapf` layers to
the innermost error. -/
def GoError.cause : GoError → GoError
  | .wrapped _ e => e.cause
  | e => e

/-- `errors.Is(err, context.DeadlineExceeded)`: the error chain carries
the deadline-exceeded sentinel. -/
def GoError.isDeadlineExceeded : GoError → Bool
  | .deadlineExceeded => true
  | .wrapped _ e => e.isDeadlineExceeded
  | _ => false

/-- Go `time.Duration` rendering of a whole number of seconds, as `%s`
formats it (`"60s"`). -/
def goDurationString (seconds : Nat) : String := toString seconds ++ "s"

/-- `(*errTimeoutReached).Error()` from `executor.go`:
`"Timeout reached. Execution took longer than %s."` with the configured
timeout formatted in place of `%s`. -/
def errTimeoutReachedMessage (timeout : Nat) : String :=
  "Timeout reached. Execution took longer than " ++ goDurationString timeout ++ "."

/-- `reachedTimeout(cmdCtx, err)` from `executor.go`: true when the cause
of `err` is an `*exec.ExitError` rendering as `"signal: killed"` while the
per-task context reports `context.DeadlineExceeded`, and otherwise when
the error chain of `err` carries `context.DeadlineExceeded`. `cmdCtxErr`
is the value of `cmdCtx.Err()`. -/
def reachedTimeout (cmdCtxErr : Option GoError) (err : GoError) : Bool :=
  (match err.cause with
   | .exitError msg => msg == "signal: killed" && cmdCtxErr == some .deadlineExceeded
   | _ => false)
  || err.isDeadlineExceeded

/-- `Step` from the campaign types. That file is absent from the sources;
modelled from the spec: `container` (image reference as given), a resolved
image digest, `run` (a shell command string), `env` (name-value pairs). -/
structure Step where
  Container : String
  image : String
  Run : String
  Env : List (String × String)
deriving DecidableEq, Repr

/-- `ChangesetTemplate` from the campaign types. That file is absent from
the sources; modelled from the spec: `branch`, `title`, `body`, commit
`message`, `published` (tri-state, `none` = unspecified). -/
structure ChangesetTemplate where
  Branch : String
  Title : String
  Body : String
  CommitMessage : String
  Published : Option Bool
deriving DecidableEq, Repr

/-- `Repository.BaseRef` — modelled from the spec: the base ref recorded in
a changeset spec is `refs/heads/<default-branch>`, so `BaseRef()` yields
the default branch name. -/
def Repository.BaseRef (r : Repository) : String := r.DefaultBranch

/-- `Repository.Rev` — modelled from the spec: the current revision
(commit id) of the resolved repository. -/
def Repository.Rev (r : Repository) : String := r.Revision

/-- `GitCommitDescription` as populated by `executor.do`. -/
structure GitCommitDescription where
  Message : String
  Diff : String
deriving DecidableEq, Repr

/-- `CreatedChangeset` as populated by `executor.do`. -/
structure CreatedChangeset where
  BaseRef : String
  BaseRev : String
  HeadRepository : String
  HeadRef : String
  Title : String
  Body : String
  Commits : List GitCommitDescription
  Published : Option Bool
deriving DecidableEq, Repr

/-- `ChangesetSpec` as populated by `executor.do`. -/
structure ChangesetSpec where
  BaseRepository : String
  Created : CreatedChangeset
deriving DecidableEq, Repr

/-- `Task` from `executor.go`: one (repository, steps, template) triple. -/
structure Task where
  Repository : Repository
  Steps : List Step
  Template : ChangesetTemplate
deriving DecidableEq, Repr

/-- `TaskStatus` from `executor.go`. Timestamps are modelled by a logical
clock (`0` = the Go zero time, i.e. not yet recorded). -/
structure TaskStatus where
  Cached : Bool := false
  LogFile : String := ""
  EnqueuedAt : Nat := 0
  StartedAt : Nat := 0
  FinishedAt : Nat := 0
  ChangesetSpec : Option ChangesetSpec := none
  Err : Option GoError := none
deriving DecidableEq, Repr

/-- The status stored by `executor.AddTask`: only `EnqueuedAt` is set. -/
def addTaskStatus (t : Nat) : TaskStatus := { EnqueuedAt := t }

/-- Which context a cache write received: the outer caller-supplied
context, or the deadline-bounded per-task `runCtx`. -/
inductive CtxKind where
  | outer
  | perTask
deriving DecidableEq, Repr

/-- Observable effects of one `executor.do` run, in program order:
status-callback emissions (`updateTaskStatus`), cache calls, log-file
lifecycle, step execution, and the mutex-guarded append to the aggregate
spec list. -/
inductive Ev where
  | update (st : TaskStatus)
  | cacheClear
  | cacheGet
  | createLog
  | markErrored
  | closeLog
  | runSteps
  | lockSpecs
  | appendSpec (s : ChangesetSpec)
  | unlockSpecs
  | cacheSet (ctx : CtxKind) (s : ChangesetSpec)
deriving DecidableEq, Repr

/-- The environment one `executor.do` call runs against: the executor
options it reads and the outcome of each external call it makes. `Timeout`
is in seconds; `runCtxErr` is what `runCtx.Err()` reports when
`reachedTimeout` inspects it; `stepsResult` is the diff produced by
`runSteps` or its error. -/
structure DoEnv where
  ClearCache : Bool
  Timeout : Nat
  clearResult : Option GoError
  getResult : Except GoError (Option ChangesetSpec)
  logResult : Option GoError
  stepsResult : Except GoError (List Char)
  runCtxErr : Option GoError
  setResult : Option GoError
deriving Repr

/-- The changeset spec built by `executor.do` on step success, field for
field as in the source. -/
def buildChangesetSpec (task : Task) (diff : List Char) : ChangesetSpec :=
  { BaseRepository := task.Repository.ID
    Created :=
      { BaseRef := "refs/heads/" ++ task.Repository.BaseRef
        BaseRev := task.Repository.Rev
        HeadRepository := task.Repository.ID
        HeadRef := "refs/heads/" ++ task.Template.Branch
        Title := task.Template.Title
        Body := task.Template.Body
        Commits := [{ Message := task.Template.CommitMessage, Diff := String.mk diff }]
        Published := task.Template.Published } }

/-- The deferred block registered first in `executor.do`: record
`FinishedAt`, store the named return error into `status.Err`, and emit the
status callback. It runs last, on every return path. -/
def finishDefer (st : TaskStatus) (err : Option GoError) (t : Nat) (evs : List Ev) :
    TaskStatus × List Ev :=
  let st := { st with FinishedAt := t, Err := err }
  (st, evs ++ [Ev.update st])

/-- The deferred block registered after log creation: mark the log errored
when the named return error is non-nil, then close the log. It runs before
`finishDefer` on every return path that created a log. -/
def logCloseDefer (err : Option GoError) (evs : List Ev) : List Ev :=
  evs ++ (if err.isSome then [Ev.markErrored] else []) ++ [Ev.closeLog]

/-- The tail of `executor.do` after the cache check found no usable entry:
create the log file, run the steps under the deadline-bounded context, and
either map the failure through `reachedTimeout` or build the changeset
spec, append it to the aggregate list under the mutex, and write the cache
using the outer context. -/
def doTaskRun (x : DoEnv) (task : Task) (st : TaskStatus) (evs : List Ev) (t : Nat) :
    TaskStatus × List Ev :=
  match x.logResult with
  | some e =>
    finishDefer st (some (.wrapped "creating log file" e)) t evs
  | none =>
    let evs := evs ++ [Ev.createLog]
    match x.stepsResult with
    | .error e =>
      let err := if reachedTimeout x.runCtxErr e then GoError.errTimeoutReached x.Timeout else e
      finishDefer st (some err) t (logCloseDefer (some err) (evs ++ [Ev.runSteps]))
    | .ok diff =>
      let spec := buildChangesetSpec task diff
      let st := { st with ChangesetSpec := some spec }
      let evs := evs ++ [Ev.runSteps, Ev.update st, Ev.lockSpecs, Ev.appendSpec spec,
        Ev.unlockSpecs, Ev.cacheSet CtxKind.outer spec]
      let err := x.setResult.map
        (fun e => GoError.wrapped ("caching result for " ++ task.Repository.Name) e)
      finishDefer st err t (logCloseDefer err evs)

/-- `executor.do` from `executor.go`, as a pure function from the
environment, the task, the stored status and a starting clock to the final
status and the event trace: record `StartedAt` and emit the callback;
clear the cache or consult it (returning early on a hit after attaching
the cached result and appending it to the aggregate list); otherwise run
`doTaskRun`. The deferred status update runs on every path. -/
def doTask (x : DoEnv) (task : Task) (st₀ : TaskStatus) (t₀ : Nat) :
    TaskStatus × List Ev :=
  let st := { st₀ with StartedAt := t₀ }
  let evs := [Ev.update st]
  let t := t₀ + 1
  if x.ClearCache then
    match x.clearResult with
    | some e =>
      finishDefer st
        (some (.wrapped ("clearing cache for " ++ task.Repository.Name) e)) t
        (evs ++ [Ev.cacheClear])
    | none => doTaskRun x task st (evs ++ [Ev.cacheClear]) t
  else
    match x.getResult with
    | .error e =>
      finishDefer st
        (some (.wrapped ("checking cache for " ++ task.Repository.Name) e)) t
        (evs ++ [Ev.cacheGet])
    | .ok (some result) =>
      let st := { st with Cached := true, ChangesetSpec := some result, FinishedAt := t }
      let evs := evs ++ [Ev.cacheGet, Ev.update st, Ev.lockSpecs, Ev.appendSpec result,
        Ev.unlockSpecs]
      finishDefer st none (t + 1) evs
    | .ok none => doTaskRun x task st (evs ++ [Ev.cacheGet]) t

/-! ## `-j` flag handling (`campaigns_apply.go`) -/

/-- `flag.Int` returns a pointer to the parsed value; it never returns
`nil`. The pointer is modelled as an `Option Int` that is always `some`. -/
def goFlagInt (value : Int) : Option Int := some value

/-- The `Parallelism` computation of the `campaigns apply` handler:
`if parallelismFlag != nil || *parallelismFlag <= 0` choose
`runtime.GOMAXPROCS(0)`, else the flag value (`Option.getD` models the
pointer dereference). -/
def campaignsApplyParallelism (parallelismFlag : Option Int) (gomaxprocs : Int) : Int :=
  if parallelismFlag.isSome || decide (parallelismFlag.getD 0 ≤ 0) then gomaxprocs
  else parallelismFlag.getD 0

/-- `reachedTimeout`'s first condition, named: the cause of the error is an
`*exec.ExitError` whose rendering is `"signal: killed"`. -/
def processKilled (e : GoError) : Bool :=
  match e.cause with
  | .exitError msg => msg == "signal: killed"
  | _ => false

/-! ## Theorems -/

/-- C8: in the `campaigns apply` handler, `Parallelism` equals
`runtime.GOMAXPROCS(0)` for every value of the `-j` flag: since `flag.Int`
never returns `nil`, the guard `parallelismFlag != nil || *parallelismFlag <= 0`
is always true and the branch assigning the user-supplied `-j` value is
unreachable. -/
theorem c8_parallelism_always_gomaxprocs (j gomaxprocs : Int) :
    campaignsApplyParallelism (goFlagInt j) gomaxprocs = gomaxprocs := by
  simp [campaignsApplyParallelism, goFlagInt]

/-- C2 (code bug): `TaskLogger.Close` closes the file but never removes
the log file, for any combination of the `errored` and `keep` flags — the
unconditional `return nil` in the source makes the `os.Remove` call
unreachable — while the intended behaviour deletes the file when neither
flag is set. -/
theorem c2_close_never_removes_log :
    (∀ errored keep : Bool, taskLoggerClose errored keep = [FsAction.closeFile]) ∧
      taskLoggerCloseIntended false false = [FsAction.closeFile, FsAction.removeFile] := by
  constructor
  · intro errored keep
    simp [taskLoggerClose]
  · decide

/-- C3 (code bug): `prefixWriter.Write` appends one line per
newline-delimited chunk, but because the source ranges over chunk indices
(`for line := range bytes.Split(...)`), each line's payload is
`string(i)` — the one-rune string of the chunk's index — not the chunk's
text: writing `"hi\nyo"` with stream name `"stdout"` logs payloads
`"\x00"` and `"\x01"` where the intended behaviour logs `"hi"` and
`"yo"`. -/
theorem c3_write_logs_indices_not_chunks :
    prefixWriterWrite "T".data "stdout".data "hi\nyo".data =
      ["T stdout | \x00\n".data, "T stdout | \x01\n".data] ∧
    prefixWriterWriteIntended "T".data "stdout".data "hi\nyo".data =
      ["T stdout | hi\n".data, "T stdout | yo\n".data] := by
  decide

/-- C6 (counterexample): an archive entry with the absolute name
`"/etc/passwd"` is NOT rejected by `unzip`'s check — `filepath.Join`
splices it beneath the destination, where it does not escape — refuting
the claim that absolute-named entries are rejected with an extraction
error. -/
theorem c6_absolute_entry_not_rejected :
    unzipEntryRejected "/tmp/x" "/etc/passwd" = false ∧
    entryEscapes "/tmp/x" "/etc/passwd" = false ∧
    filepathJoin "/tmp/x" "/etc/passwd" = "/tmp/x/etc/passwd" := by
  decide

/-- C6 (amended): every archive entry whose resolved destination path
(`filepath.Join` of the destination and the entry name) escapes the
destination directory — in particular `..`-bearing names that climb out of
it — is rejected by `unzip` before any file is written for it; entries
with absolute names are joined beneath the destination instead and are not
rejected. -/
theorem c6_escaping_entry_rejected (dest name : String)
    (h : entryEscapes dest name = true) : unzipEntryRejected dest name = true := by
  simp only [entryEscapes, Bool.not_eq_true', Bool.or_eq_false_iff] at h
  simp only [unzipEntryRejected, Bool.not_eq_true']
  exact h.2

theorem c6_escaping_entry_rejected_witness :
    entryEscapes "/tmp/x" "../evil" = true ∧
      unzipEntryRejected "/tmp/x" "../evil" = true :=
  ⟨by decide, c6_escaping_entry_rejected "/tmp/x" "../evil" (by decide)⟩

/-- Appending `" count:999999"` to any query yields a query matched by
`\bcount:\d+\b`: the space before `count` gives the leading word boundary
and the end of the string gives the trailing one. -/
theorem scanCount_append_hardCodedCount (l : List Char) (b : Bool) :
    scanCount b (l ++ hardCodedCount.data) = true := by
  induction l generalizing b with
  | nil =>
    cases b <;> decide
  | cons c cs ih =>
    have ih' : ∀ b : Bool, scanCount b (cs.append hardCodedCount.data) = true := ih
    simp only [List.cons_append, scanCount, ih', Bool.or_true]

/-- C10: `setDefaultQueryCount` returns the query unchanged when it
matches `\bcount:\d+\b` and appends `" count:999999"` otherwise, and is
idempotent: applying it twice equals applying it once, because the
appended suffix itself matches the pattern. -/
theorem c10_setDefaultQueryCount_idempotent (q : String) :
    setDefaultQueryCount q =
      (if matchesDefaultQueryCountRegex q then q else q ++ hardCodedCount) ∧
    setDefaultQueryCount (setDefaultQueryCount q) = setDefaultQueryCount q := by
  refine ⟨rfl, ?_⟩
  by_cases h : matchesDefaultQueryCountRegex q
  · simp [setDefaultQueryCount, h]
  · have hm : matchesDefaultQueryCountRegex (q ++ hardCodedCount) = true := by
      unfold matchesDefaultQueryCountRegex
      rw [String.data_append]
      exact scanCount_append_hardCodedCount q.data true
    simp [setDefaultQueryCount, h, hm]

/-- The inner loop of `ResolveRepositories` computes first-occurrence
deduplication, threading the kept list and the seen set. -/
theorem foldl_resolveStep (repos : List Repository) :
    ∀ final seen, repos.foldl resolveStep (final, seen) =
      (final ++ keepFirstByID seen repos, seenAfter seen repos) := by
  induction repos with
  | nil => intro final seen; simp [keepFirstByID, seenAfter]
  | cons r rs ih =>
    intro final seen
    by_cases h : r.ID ∈ seen
    · simp [List.foldl_cons, resolveStep, h, keepFirstByID, seenAfter, ih]
    · simp [List.foldl_cons, resolveStep, h, keepFirstByID, seenAfter, ih]

/-- First-occurrence deduplication over a concatenation splits at the
boundary, the second part running against the updated seen set. -/
theorem keepFirstByID_append (l1 l2 : List Repository) : ∀ seen,
    keepFirstByID seen (l1 ++ l2) =
      keepFirstByID seen l1 ++ keepFirstByID (seenAfter seen l1) l2 ∧
    seenAfter seen (l1 ++ l2) = seenAfter (seenAfter seen l1) l2 := by
  induction l1 with
  | nil => intro seen; simp [keepFirstByID, seenAfter]
  | cons r rs ih =>
    intro seen
    by_cases h : r.ID ∈ seen
    · simp [keepFirstByID, seenAfter, h, ih]
    · simp [keepFirstByID, seenAfter, h, ih]

/-- The two nested loops of `ResolveRepositories` compute first-occurrence
deduplication of the concatenation of the per-clause lists. -/
theorem foldl_resolveRepositories (rss : List (List Repository)) :
    ∀ final seen,
      rss.foldl (fun acc repos => repos.foldl resolveStep acc) (final, seen) =
        (final ++ keepFirstByID seen rss.flatten, seenAfter seen rss.flatten) := by
  induction rss with
  | nil => intro final seen; simp [keepFirstByID, seenAfter]
  | cons l ls ih =>
    intro final seen
    simp only [List.foldl_cons, List.flatten_cons]
    rw [foldl_resolveStep l final seen, ih]
    have h := keepFirstByID_append l ls.flatten seen
    rw [h.1, h.2, List.append_assoc]

/-- IDs kept by first-occurrence deduplication are pairwise distinct and
disjoint from the initial seen set. -/
theorem keepFirstByID_nodup (l : List Repository) : ∀ seen,
    ((keepFirstByID seen l).map Repository.ID).Nodup ∧
    ∀ r' ∈ keepFirstByID seen l, r'.ID ∉ seen := by
  induction l with
  | nil => intro seen; simp [keepFirstByID]
  | cons r rs ih =>
    intro seen
    by_cases h : r.ID ∈ seen
    · simpa [keepFirstByID, h] using ih seen
    · have hstep : keepFirstByID seen (r :: rs) = r :: keepFirstByID (r.ID :: seen) rs := by
        simp [keepFirstByID, h]
      have key := ih (r.ID :: seen)
      rw [hstep]
      refine ⟨?_, ?_⟩
      · simp only [List.map_cons, List.nodup_cons]
        refine ⟨fun hmem => ?_, key.1⟩
        obtain ⟨r', hr', hid⟩ := List.mem_map.mp hmem
        have hnot := key.2 r' hr'
        rw [hid] at hnot
        exact hnot (List.mem_cons_self _ _)
      · intro r' hr'
        rcases List.mem_cons.mp hr' with rfl | hr'
        · exact h
        · have hnot := key.2 r' hr'
          exact fun hmem => hnot (List.mem_cons_of_mem _ hmem)

/-- C9: `ResolveRepositories` returns, for the per-`on:`-clause result
lists, exactly the first repository encountered for each ID in encounter
order across the clauses' concatenation, and the returned repository IDs
are pairwise distinct. -/
theorem c9_resolveRepositories_first_occurrence_nodup
    (onResults : List (List Repository)) :
    resolveRepositories onResults = keepFirstByID [] onResults.flatten ∧
    ((resolveRepositories onResults).map Repository.ID).Nodup := by
  have h : resolveRepositories onResults = keepFirstByID [] onResults.flatten := by
    unfold resolveRepositories
    rw [foldl_resolveRepositories onResults [] []]
    simp
  refine ⟨h, ?_⟩
  rw [h]
  exact (keepFirstByID_nodup onResults.flatten []).1

/-- A sample resolved repository, used to instantiate executor runs. -/
def sampleRepo : Repository :=
  { ID := "R1", Name := "github.com/foo/bar", DefaultBranch := "main", Revision := "abc123" }

/-- A sample changeset template. -/
def sampleTemplate : ChangesetTemplate :=
  { Branch := "fix", Title := "T", Body := "B", CommitMessage := "M", Published := some false }

/-- A sample task. -/
def sampleTask : Task :=
  { Repository := sampleRepo, Steps := [], Template := sampleTemplate }

/-- An executor environment in which the steps succeed with an empty diff
but the subsequent cache write fails. -/
def envSetFails : DoEnv :=
  { ClearCache := false, Timeout := 1, clearResult := none, getResult := .ok none,
    logResult := none, stepsResult := .ok [], runCtxErr := none,
    setResult := some (.simple "disk full") }

/-- An executor environment in which the steps fail with the
deadline-exceeded sentinel while the per-task context reports the same. -/
def envC4 : DoEnv :=
  { ClearCache := false, Timeout := 1, clearResult := none, getResult := .ok none,
    logResult := none, stepsResult := .error .deadlineExceeded,
    runCtxErr := some .deadlineExceeded, setResult := none }

/-- An executor environment in which the cache lookup hits. -/
def envC5 : DoEnv :=
  { ClearCache := false, Timeout := 1, clearResult := none,
    getResult := .ok (some (buildChangesetSpec sampleTask [])),
    logResult := none, stepsResult := .ok [], runCtxErr := none, setResult := none }

/-- An executor environment in which the steps succeed and the cache write
succeeds. -/
def envC7 : DoEnv :=
  { ClearCache := false, Timeout := 1, clearResult := none, getResult := .ok none,
    logResult := none, stepsResult := .ok ['d'], runCtxErr := none, setResult := none }

/-- C1 (counterexample): in a run whose steps succeed but whose cache
write fails, `executor.do` terminates with BOTH `ChangesetSpec` and `Err`
non-null while `FinishedAt` is recorded — the deferred status update
stores the `cache.Set` error after the changeset spec was already
attached — refuting mutual exclusivity of the two result fields. -/
theorem c1_result_and_error_both_set :
    (doTask envSetFails sampleTask (addTaskStatus 0) 0).1.ChangesetSpec.isSome = true ∧
    (doTask envSetFails sampleTask (addTaskStatus 0) 0).1.Err.isSome = true ∧
    (doTask envSetFails sampleTask (addTaskStatus 0) 0).1.FinishedAt ≠ 0 := by
  decide

/-- C1 (amended): at termination at least one of `ChangesetSpec` and `Err`
is non-null, and exactly one except in the single case where step
execution succeeded and the subsequent `cache.Set` failed, in which case
both are non-null. -/
theorem c1_result_error_exclusive_amended (x : DoEnv) (task : Task) (te t₀ : Nat) :
    ((doTask x task (addTaskStatus te) t₀).1.ChangesetSpec.isSome ||
      (doTask x task (addTaskStatus te) t₀).1.Err.isSome) = true ∧
    (((doTask x task (addTaskStatus te) t₀).1.ChangesetSpec.isSome &&
        (doTask x task (addTaskStatus te) t₀).1.Err.isSome) = true ↔
      (∃ diff, x.stepsResult = Except.ok diff) ∧ x.setResult.isSome = true ∧
        x.logResult = none ∧
        ((x.ClearCache = true ∧ x.clearResult = none) ∨
          (x.ClearCache = false ∧ x.getResult = Except.ok none))) := by
  obtain ⟨cc, tmo, cr, gr, lr, sr, rc, se⟩ := x
  cases cc <;> cases cr <;> cases lr <;> cases se <;>
    rcases gr with ge | (_ | r) <;> rcases sr with e2 | d <;>
      simp [doTask, doTaskRun, finishDefer, logCloseDefer, addTaskStatus]

/-- C4: when step execution fails, `executor.do` stores the distinguished
timeout error exactly when `reachedTimeout` holds, `reachedTimeout` holds
exactly when the step process was killed while the per-task context
reports deadline-exceeded or the error chain carries deadline-exceeded,
and the timeout error's message names the configured timeout duration. -/
theorem c4_step_error_timeout_mapping (x : DoEnv) (task : Task) (te t₀ : Nat) (e : GoError)
    (hcc : x.ClearCache = false) (hget : x.getResult = Except.ok none)
    (hlog : x.logResult = none) (hsteps : x.stepsResult = Except.error e) :
    (doTask x task (addTaskStatus te) t₀).1.Err =
      some (if reachedTimeout x.runCtxErr e then GoError.errTimeoutReached x.Timeout else e) ∧
    (reachedTimeout x.runCtxErr e = true ↔
      ((processKilled e = true ∧ x.runCtxErr = some GoError.deadlineExceeded) ∨
        e.isDeadlineExceeded = true)) ∧
    errTimeoutReachedMessage x.Timeout =
      "Timeout reached. Execution took longer than " ++ goDurationString x.Timeout ++ "." := by
  obtain ⟨cc, tmo, cr, gr, lr, sr, rc, se⟩ := x
  simp only at hcc hget hlog hsteps
  subst hcc hget hlog hsteps
  refine ⟨?_, ?_, rfl⟩
  · simp [doTask, doTaskRun, finishDefer, logCloseDefer, addTaskStatus]
  · cases hc : e.cause <;>
      simp [reachedTimeout, processKilled, hc, Bool.or_eq_true, Bool.and_eq_true,
        beq_iff_eq]

theorem c4_step_error_timeout_mapping_witness :
    (envC4.ClearCache = false ∧ envC4.getResult = Except.ok none ∧
      envC4.logResult = none ∧
      envC4.stepsResult = Except.error GoError.deadlineExceeded) ∧
    (doTask envC4 sampleTask (addTaskStatus 0) 0).1.Err =
      some (if reachedTimeout envC4.runCtxErr GoError.deadlineExceeded then
        GoError.errTimeoutReached envC4.Timeout else GoError.deadlineExceeded) :=
  ⟨⟨rfl, rfl, rfl, rfl⟩,
    (c4_step_error_timeout_mapping envC4 sampleTask 0 0 GoError.deadlineExceeded
      rfl rfl rfl rfl).1⟩

/-- C5: on a cache hit with `clear_cache` unset, `executor.do` marks the
status cached, attaches the cached result, records `finished_at`, appends
the result to the aggregate spec list, emits the update callback carrying
the cached terminal status, and returns success — without creating a log
file and without running any step. -/
theorem c5_cache_hit_short_circuit (x : DoEnv) (task : Task) (te t₀ : Nat)
    (result : ChangesetSpec) (hcc : x.ClearCache = false)
    (hget : x.getResult = Except.ok (some result)) :
    (doTask x task (addTaskStatus te) t₀).1.Cached = true ∧
    (doTask x task (addTaskStatus te) t₀).1.ChangesetSpec = some result ∧
    (doTask x task (addTaskStatus te) t₀).1.FinishedAt ≠ 0 ∧
    (doTask x task (addTaskStatus te) t₀).1.Err = none ∧
    Ev.appendSpec result ∈ (doTask x task (addTaskStatus te) t₀).2 ∧
    Ev.update (doTask x task (addTaskStatus te) t₀).1 ∈
      (doTask x task (addTaskStatus te) t₀).2 ∧
    Ev.createLog ∉ (doTask x task (addTaskStatus te) t₀).2 ∧
    Ev.runSteps ∉ (doTask x task (addTaskStatus te) t₀).2 := by
  obtain ⟨cc, tmo, cr, gr, lr, sr, rc, se⟩ := x
  simp only at hcc hget
  subst hcc hget
  refine ⟨?_, ?_, ?_, ?_, ?_, ?_, ?_, ?_⟩ <;>
    simp [doTask, finishDefer, addTaskStatus]

theorem c5_cache_hit_short_circuit_witness :
    (envC5.ClearCache = false ∧
      envC5.getResult = Except.ok (some (buildChangesetSpec sampleTask []))) ∧
    (doTask envC5 sampleTask (addTaskStatus 0) 0).1.Cached = true ∧
    (doTask envC5 sampleTask (addTaskStatus 0) 0).1.ChangesetSpec =
      some (buildChangesetSpec sampleTask []) :=
  ⟨⟨rfl, rfl⟩,
    ((c5_cache_hit_short_circuit envC5 sampleTask 0 0 (buildChangesetSpec sampleTask [])
      rfl rfl).1),
    ((c5_cache_hit_short_circuit envC5 sampleTask 0 0 (buildChangesetSpec sampleTask [])
      rfl rfl).2.1)⟩

/-- C7: when the steps succeed, `executor.do` takes the spec mutex,
appends the built changeset spec to the aggregate list, releases the
mutex, and only then calls `cache.Set` — and every `cache.Set` in the
trace receives the outer caller-supplied context, never the
deadline-bounded per-task one. -/
theorem c7_success_append_then_outer_cache_set (x : DoEnv) (task : Task) (te t₀ : Nat)
    (diff : List Char) (hcc : x.ClearCache = false) (hget : x.getResult = Except.ok none)
    (hlog : x.logResult = none) (hsteps : x.stepsResult = Except.ok diff) :
    (∃ i j k l : Nat, i < j ∧ j < k ∧ k < l ∧
      ((doTask x task (addTaskStatus te) t₀).2)[i]? = some Ev.lockSpecs ∧
      ((doTask x task (addTaskStatus te) t₀).2)[j]? =
        some (Ev.appendSpec (buildChangesetSpec task diff)) ∧
      ((doTask x task (addTaskStatus te) t₀).2)[k]? = some Ev.unlockSpecs ∧
      ((doTask x task (addTaskStatus te) t₀).2)[l]? =
        some (Ev.cacheSet CtxKind.outer (buildChangesetSpec task diff))) ∧
    ∀ c s, Ev.cacheSet c s ∈ (doTask x task (addTaskStatus te) t₀).2 →
      c = CtxKind.outer := by
  obtain ⟨cc, tmo, cr, gr, lr, sr, rc, se⟩ := x
  simp only at hcc hget hlog hsteps
  subst hcc hget hlog hsteps
  constructor
  · refine ⟨5, 6, 7, 8, by omega, by omega, by omega, ?_, ?_, ?_, ?_⟩ <;>
      cases se <;> rfl
  · intro c s h
    cases se <;>
      simp [doTask, doTaskRun, finishDefer, logCloseDefer, addTaskStatus] at h <;>
      tauto

theorem c7_success_append_then_outer_cache_set_witness :
    (envC7.ClearCache = false ∧ envC7.getResult = Except.ok none ∧
      envC7.logResult = none ∧ envC7.stepsResult = Except.ok ['d']) ∧
    ∀ c s, Ev.cacheSet c s ∈ (doTask envC7 sampleTask (addTaskStatus 0) 0).2 →
      c = CtxKind.outer :=
  ⟨⟨rfl, rfl, rfl, rfl⟩,
    (c7_success_append_then_outer_cache_set envC7 sampleTask 0 0 ['d']
      rfl rfl rfl rfl).2⟩

end SrcCli
